import Mathlib

/-!
Shallow embedding of `src/heads/fileheads/src/lib.rs` (the `FileHeads` store).

Keys are modelled at byte level as `List Nat` (each byte `< 256`), matching the
byte string that serde serializes for a string-like key type.  Filenames are
modelled as `List Char`.  The codec is `serde_urlencoded` applied to the
single-field struct `UrlEncodeWrapper { key }`: encoding produces
`key=<form-urlencoded bytes>` and decoding parses that shape back.
-/

set_option maxRecDepth 10000

namespace Fileheads

/-- Uppercase hexadecimal digit for `n < 16`, as emitted by percent-encoding. -/
def hexDigitChar (n : Nat) : Char :=
  if n < 10 then Char.ofNat (48 + n) else Char.ofNat (55 + n)

/-- Value of a hexadecimal digit character (either case), `none` otherwise. -/
def hexVal (c : Char) : Option Nat :=
  if 48 ≤ c.toNat ∧ c.toNat ≤ 57 then some (c.toNat - 48)
  else if 65 ≤ c.toNat ∧ c.toNat ≤ 70 then some (c.toNat - 55)
  else if 97 ≤ c.toNat ∧ c.toNat ≤ 102 then some (c.toNat - 87)
  else none

/-- Bytes that form-urlencoding leaves unchanged: `*`, `-`, `.`, `_`,
digits and ASCII letters. -/
def isUnreservedByte (b : Nat) : Bool :=
  b == 42 || b == 45 || b == 46 || b == 95 ||
  (48 ≤ b && b ≤ 57) || (65 ≤ b && b ≤ 90) || (97 ≤ b && b ≤ 122)

/-- Form-urlencoding of one byte: space becomes `+`, unreserved bytes pass
through, every other byte becomes `%XX` with uppercase hex. -/
def encodeByte (b : Nat) : List Char :=
  if b == 32 then ['+']
  else if isUnreservedByte b then [Char.ofNat b]
  else ['%', hexDigitChar (b / 16), hexDigitChar (b % 16)]

/-- Form-urlencoding of a byte string. -/
def urlencodeBytes (bs : List Nat) : List Char :=
  (bs.map encodeByte).flatten

/-- UTF-8 bytes of a character (used when percent-decoding passes a character
through unchanged). -/
def charBytes (c : Char) : List Nat :=
  let n := c.toNat
  if n < 128 then [n]
  else if n < 2048 then [192 + n / 64, 128 + n % 64]
  else if n < 65536 then [224 + n / 4096, 128 + (n / 64) % 64, 128 + n % 64]
  else [240 + n / 262144, 128 + (n / 4096) % 64, 128 + (n / 64) % 64, 128 + n % 64]

/-- Lookahead after a `%`: two hex digits give the decoded byte and the
remaining input, anything else gives `none`. -/
def pctChunk : List Char → Option (Nat × List Char)
  | h1 :: h2 :: rest2 =>
    match hexVal h1, hexVal h2 with
    | some a, some b => some (16 * a + b, rest2)
    | _, _ => none
  | _ => none

/-- Form-urlencoded percent-decoding to bytes: `+` is a space, `%XY` with two
hex digits is a byte (the recursion continues on `rest.drop 2`, which is the
remainder returned by `pctChunk`), a `%` not followed by two hex digits passes
through, and any other character contributes its UTF-8 bytes. -/
def percentDecode : List Char → List Nat
  | [] => []
  | c :: rest =>
    if c = '+' then 32 :: percentDecode rest
    else if c = '%' then
      match pctChunk rest with
      | some (b, _) => b :: percentDecode (rest.drop 2)
      | none => charBytes '%' ++ percentDecode rest
    else charBytes c ++ percentDecode rest
termination_by s => s.length
decreasing_by all_goals (simp only [List.length_cons, List.length_drop]; omega)

/-- Split a form-urlencoded input at each `&` separator. -/
def splitAmp : List Char → List (List Char)
  | [] => [[]]
  | c :: rest =>
    if c = '&' then [] :: splitAmp rest
    else
      let segs := splitAmp rest
      (c :: segs.headD []) :: segs.tail

/-- Split one `name=value` pair at the first `=`; a pair without `=` has an
empty value. -/
def splitEq : List Char → List Char × List Char
  | [] => ([], [])
  | c :: rest =>
    if c = '=' then ([], rest)
    else
      let p := splitEq rest
      (c :: p.1, p.2)

/-- The parsed `(name, value)` pairs of a form-urlencoded input, with both
sides percent-decoded and empty segments skipped. -/
def formPairs (s : List Char) : List (List Nat × List Nat) :=
  ((splitAmp s).filter (fun seg => !seg.isEmpty)).map
    (fun seg => (percentDecode (splitEq seg).1, percentDecode (splitEq seg).2))

/-- How decoding a `UrlEncodeWrapper` can fail: the `key` field is missing, or
appears more than once. -/
inductive DecodeError
  | missingField
  | duplicateField
deriving DecidableEq, Repr

/-- The bytes of the field name `key` of `UrlEncodeWrapper`. -/
def keyFieldBytes : List Nat := [107, 101, 121]

/-- `serde_urlencoded::from_str::<UrlEncodeWrapper<T>>`: parse the form pairs
and extract the single `key` field (unknown fields are ignored, a missing or
duplicated `key` field is an error). -/
def decodeKey (s : List Char) : Except DecodeError (List Nat) :=
  match (formPairs s).filter (fun p => p.1 == keyFieldBytes) with
  | [] => .error .missingField
  | [p] => .ok p.2
  | _ => .error .duplicateField

/-- `serde_urlencoded::to_string(UrlEncodeWrapper::new(key))`: the string
`key=` followed by the form-urlencoding of the key's bytes. -/
def encodeKey (k : List Nat) : List Char :=
  'k' :: 'e' :: 'y' :: '=' :: urlencodeBytes k

/-! ### Errors and filesystem model

The base directory is modelled as the list of filenames it contains
(`List (List Char)`), in directory-listing order.  Environmental I/O failures
(permissions and the like), which the Rust code receives from the OS, are
modelled by an optional fault injected into the one syscall an operation
performs. -/

/-- OS error kinds distinguished by the code (`io::ErrorKind`); only
`NotFound` is inspected, everything else is lumped together. -/
inductive IOErrorKind
  | notFound
  | permissionDenied
  | otherKind
deriving DecidableEq, Repr

/-- The crate's `Error` (`error_chain!` with foreign links): a serde decode
error, an I/O error, a serde serialize error, or the `bail!` message used by
`open_with_pool` for a path that is not a directory. -/
inductive Error
  | de : DecodeError → Error
  | ioErr : IOErrorKind → Error
  | ser : Error
  | notDir : Error
deriving DecidableEq, Repr

instance {α : Type} [DecidableEq α] : DecidableEq (Except Error α) := fun a b =>
  match a, b with
  | .ok x, .ok y =>
    if h : x = y then isTrue (by rw [h]) else isFalse (by simp [h])
  | .error x, .error y =>
    if h : x = y then isTrue (by rw [h]) else isFalse (by simp [h])
  | .ok _, .error _ => isFalse (by simp)
  | .error _, .ok _ => isFalse (by simp)

/-- The fixed filename prefix `head:` (`static PREFIX`). -/
def prefixChars : List Char := ['h', 'e', 'a', 'd', ':']

/-- The marker filename for an encoded key: the prefix followed by the
codec output (`get_path` joins this name onto the base directory). -/
def markerName (s : List Char) : List Char := prefixChars ++ s

/-- The concrete codec used by the store for byte-string keys:
`to_string(UrlEncodeWrapper::new(key))`, which never fails for such keys. -/
def byteEnc (k : List Nat) : Except Error (List Char) := .ok (encodeKey k)

/-- The concrete decoder: `from_str::<UrlEncodeWrapper<_>>` with its error
converted into the crate error (`map_err(From::from)`). -/
def byteDec (s : List Char) : Except Error (List Nat) :=
  (decodeKey s).mapError Error.de

namespace FileHeads

/-- `FileHeads::get_path`: encode the key, then prepend the prefix.  The
encoder is a parameter, mirroring the generic `T: Serialize`. -/
def get_path (enc : List Nat → Except Error (List Char)) (k : List Nat) :
    Except Error (List Char) :=
  (enc k).map markerName

/-- `File::create(&path)`: creates the marker file if absent, truncates it
otherwise (contents are irrelevant, so the directory is unchanged). -/
def createFile (d : List (List Char)) (n : List Char) : List (List Char) :=
  if n ∈ d then d else n :: d

/-- `FileHeads::add`: compute the path, then dispatch `File::create`. -/
def add (enc : List Nat → Except Error (List Char)) (d : List (List Char))
    (k : List Nat) : Except Error (List (List Char)) :=
  (get_path enc k).map (fun path => createFile d path)

/-- `fs::remove_file(&path)` with an optional injected environmental fault:
with no fault it deletes the file, failing with `NotFound` when the file is
absent. -/
def removeFileSyscall (d : List (List Char)) (path : List Char)
    (fault : Option IOErrorKind) : Except IOErrorKind (List (List Char)) :=
  match fault with
  | some e => .error e
  | none => if path ∈ d then .ok (d.erase path) else .error .notFound

/-- `FileHeads::remove`: compute the path, dispatch deletion, and turn a
`NotFound` failure into success (`or_else` in the source). -/
def remove (enc : List Nat → Except Error (List Char)) (d : List (List Char))
    (k : List Nat) (fault : Option IOErrorKind) :
    Except Error (List (List Char)) :=
  (get_path enc k).bind (fun path =>
    match removeFileSyscall d path fault with
    | .ok d2 => .ok d2
    | .error .notFound => .ok d
    | .error e => .error (.ioErr e))

/-- `path.exists()`: `false` both when the file is absent and when the
underlying stat call fails (`Path::exists` swallows the error). -/
def pathExistsSyscall (d : List (List Char)) (path : List Char)
    (fault : Option IOErrorKind) : Bool :=
  match fault with
  | some _ => false
  | none => decide (path ∈ d)

/-- `FileHeads::is_head`: compute the path, dispatch the existence check. -/
def is_head (enc : List Nat → Except Error (List Char)) (d : List (List Char))
    (k : List Nat) (fault : Option IOErrorKind) : Except Error Bool :=
  (get_path enc k).map (fun path => pathExistsSyscall d path fault)

/-- One directory entry as produced by `fs::read_dir`'s iterator: either the
entry's filename or an I/O error for that entry. -/
def entryName (r : Except IOErrorKind (List Char)) : Except Error (List Char) :=
  r.mapError Error.ioErr

/-- The filter in `heads()`: keep entries whose name starts with the prefix,
and keep every errored entry. -/
def keepEntry (r : Except Error (List Char)) : Bool :=
  match r with
  | .ok name => prefixChars.isPrefixOf name
  | .error _ => true

/-- The final map in `heads()`: strip the prefix (`&name[PREFIX.len()..]`)
and decode; an errored entry passes through (`and_then`). -/
def decodeEntry (dec : List Char → Except Error (List Nat))
    (r : Except Error (List Char)) : Except Error (List Nat) :=
  r.bind (fun name => dec (name.drop prefixChars.length))

/-- The item sequence `heads()` builds from a successful directory listing:
map to names, filter by prefix (keeping errors), then decode. -/
def processEntries (dec : List Char → Except Error (List Nat))
    (entries : List (Except IOErrorKind (List Char))) :
    List (Except Error (List Nat)) :=
  ((entries.map entryName).filter keepEntry).map (decodeEntry dec)

/-- `FileHeads::heads`: on a successful listing, the processed entries as a
stream (`stream::iter`); if `read_dir` itself fails, a one-element stream
holding that error (`stream::once(Err(e))`). -/
def heads (dec : List Char → Except Error (List Nat))
    (listing : Except IOErrorKind (List (Except IOErrorKind (List Char)))) :
    List (Except Error (List Nat)) :=
  match listing with
  | .ok entries => processEntries dec entries
  | .error e => [.error (.ioErr e)]

/-- The items observed by a consumer of the stream that treats an error as
terminal, as `Stream::collect`/`wait` do in the futures library used by the
crate (and by its tests): everything up to and including the first error. -/
def collectStream : List (Except Error (List Nat)) → List (Except Error (List Nat))
  | [] => []
  | .ok a :: rest => .ok a :: collectStream rest
  | .error e :: _ => [.error e]

/-- `heads()` over a directory whose listing succeeds and yields every
contained filename. -/
def headsOfDir (dec : List Char → Except Error (List Nat))
    (d : List (List Char)) : List (Except Error (List Nat)) :=
  heads dec (.ok (d.map .ok))

end FileHeads

/-! ### Path-level filesystem for `open` / `create`

`open_with_pool` only asks whether the target path is a directory, and
`create_with_pool` first runs `fs::create_dir_all`.  Paths are lists of
components; the filesystem records which paths exist as directories and which
as files. -/

structure PathFS where
  dirs : List (List String)
  files : List (List String)

def PathFS.isDir (fs : PathFS) (p : List String) : Bool := decide (p ∈ fs.dirs)

def PathFS.isFile (fs : PathFS) (p : List String) : Bool := decide (p ∈ fs.files)

/-- The nonempty prefixes of a path, ending with the path itself: the
directories `fs::create_dir_all` guarantees to exist on success. -/
def ancestors (p : List String) : List (List String) :=
  (List.range p.length).map (fun i => p.take (i + 1))

/-- `fs::create_dir_all`: succeeds immediately if the target is already a
directory; fails if the target or one of its ancestors exists as a file;
otherwise creates every missing directory along the path. -/
def create_dir_all (fs : PathFS) (p : List String) : Except Error PathFS :=
  if fs.isDir p then .ok fs
  else if (ancestors p).any fs.isFile then .error (.ioErr .otherKind)
  else .ok (PathFS.mk (ancestors p ++ fs.dirs) fs.files)

namespace FileHeads

/-- `FileHeads::open_with_pool`: `bail!` unless the path is a directory,
otherwise bind the store to it (the returned base path stands for the
constructed store). -/
def open_with_pool (fs : PathFS) (p : List String) : Except Error (List String) :=
  if fs.isDir p then .ok p else .error .notDir

/-- `FileHeads::create_with_pool`: `fs::create_dir_all(path)?` and then
`open_with_pool`, returning the new filesystem alongside the store. -/
def create_with_pool (fs : PathFS) (p : List String) :
    Except Error (PathFS × List String) :=
  (create_dir_all fs p).bind (fun fs2 => (open_with_pool fs2 p).map (fun b => (fs2, b)))

end FileHeads

/-- The name under which `q` appears in a listing of directory `p`, when `q`
is a direct child of `p`. -/
def childName (p : List String) (q : List String) : Option String :=
  if q.length = p.length + 1 ∧ q.take p.length = p then q.getLast? else none

/-- Directory listing of `p`: the names of all nodes directly under it. -/
def listDir (fs : PathFS) (p : List String) : List String :=
  (fs.files ++ fs.dirs).filterMap (childName p)

theorem pctChunk_drop : ∀ rest b r2, pctChunk rest = some (b, r2) →
    rest.drop 2 = r2
  | [], b, r2, h => by simp [pctChunk] at h
  | [h1], b, r2, h => by simp [pctChunk] at h
  | h1 :: h2 :: t, b, r2, h => by
    simp only [pctChunk] at h
    cases hv1 : hexVal h1 with
    | none => rw [hv1] at h; simp at h
    | some a =>
      cases hv2 : hexVal h2 with
      | none => rw [hv1, hv2] at h; simp at h
      | some b2 =>
        rw [hv1, hv2] at h
        simp only [Option.some.injEq, Prod.mk.injEq] at h
        obtain ⟨-, rfl⟩ := h
        simp


/-! ### Round-trip of the codec -/

theorem hexVal_hexDigitChar : ∀ n, n < 16 → hexVal (hexDigitChar n) = some n := by
  decide

theorem unreserved_facts : ∀ b, b < 256 → isUnreservedByte b = true →
    Char.ofNat b ≠ '+' ∧ Char.ofNat b ≠ '%' ∧ charBytes (Char.ofNat b) = [b] := by
  decide

theorem percentDecode_nil : percentDecode [] = [] := by
  rw [percentDecode.eq_def]

theorem percentDecode_plus (rest : List Char) :
    percentDecode ('+' :: rest) = 32 :: percentDecode rest := by
  rw [percentDecode.eq_def]
  simp only [if_pos rfl, if_true]

theorem percentDecode_other (c : Char) (rest : List Char) (hp : c ≠ '+') (hpc : c ≠ '%') :
    percentDecode (c :: rest) = charBytes c ++ percentDecode rest := by
  rw [percentDecode.eq_def]
  simp only [if_neg hp, if_neg hpc]

theorem percentDecode_pctSome (rest : List Char) (b : Nat) (r2 : List Char)
    (hc : pctChunk rest = some (b, r2)) :
    percentDecode ('%' :: rest) = b :: percentDecode r2 := by
  have hd : rest.drop 2 = r2 := pctChunk_drop rest b r2 hc
  rw [percentDecode.eq_def]
  have hpp : ('%' : Char) ≠ '+' := by decide
  simp only [if_neg hpp, if_pos rfl, if_true, hc, hd]

theorem percentDecode_encodeByte (b : Nat) (hb : b < 256) (rest : List Char) :
    percentDecode (encodeByte b ++ rest) = b :: percentDecode rest := by
  by_cases h32 : b = 32
  · subst h32
    show percentDecode ('+' :: rest) = 32 :: percentDecode rest
    exact percentDecode_plus rest
  · have h32b : (b == 32) = false := by simp [h32]
    by_cases hu : isUnreservedByte b = true
    · obtain ⟨h1, h2, h3⟩ := unreserved_facts b hb hu
      have he : encodeByte b = [Char.ofNat b] := by
        simp [encodeByte, h32b, hu]
      rw [he, List.singleton_append, percentDecode_other _ _ h1 h2, h3, List.singleton_append]
    · have he : encodeByte b = ['%', hexDigitChar (b / 16), hexDigitChar (b % 16)] := by
        simp [encodeByte, h32b, hu]
      rw [he]
      have d1 := hexVal_hexDigitChar (b / 16) (by omega)
      have d2 := hexVal_hexDigitChar (b % 16) (by omega)
      have hc : pctChunk (hexDigitChar (b / 16) :: hexDigitChar (b % 16) :: rest)
          = some (b, rest) := by
        simp only [pctChunk, d1, d2]
        rw [Nat.div_add_mod]
      simp only [List.cons_append, List.nil_append]
      rw [percentDecode_pctSome _ _ _ hc]

theorem percentDecode_urlencode (bs : List Nat) (h : ∀ b ∈ bs, b < 256) :
    percentDecode (urlencodeBytes bs) = bs := by
  induction bs with
  | nil => exact percentDecode_nil
  | cons b bs ih =>
    have hb : b < 256 := h b (List.mem_cons_self b bs)
    have hrest : ∀ x ∈ bs, x < 256 := fun x hx => h x (List.mem_cons_of_mem b hx)
    have step : urlencodeBytes (b :: bs) = encodeByte b ++ urlencodeBytes bs := rfl
    rw [step, percentDecode_encodeByte b hb, ih hrest]

theorem encodeByte_no_sep : ∀ b, b < 256 → ∀ c ∈ encodeByte b,
    c ≠ '&' ∧ c ≠ '=' := by
  decide

theorem urlencode_no_sep (bs : List Nat) (h : ∀ b ∈ bs, b < 256) :
    ∀ c ∈ urlencodeBytes bs, c ≠ '&' ∧ c ≠ '=' := by
  induction bs with
  | nil => intro c hc; simp [urlencodeBytes] at hc
  | cons b bs ih =>
    intro c hc
    have step : urlencodeBytes (b :: bs) = encodeByte b ++ urlencodeBytes bs := rfl
    rw [step, List.mem_append] at hc
    rcases hc with hc | hc
    · exact encodeByte_no_sep b (h b (List.mem_cons_self b bs)) c hc
    · exact ih (fun x hx => h x (List.mem_cons_of_mem b hx)) c hc

theorem splitAmp_no_amp (s : List Char) (h : ∀ c ∈ s, c ≠ '&') :
    splitAmp s = [s] := by
  induction s with
  | nil => rfl
  | cons c rest ih =>
    have hc : c ≠ '&' := h c (List.mem_cons_self c rest)
    have hr := ih (fun x hx => h x (List.mem_cons_of_mem c hx))
    simp only [splitAmp, if_neg hc, hr]
    rfl

theorem splitEq_keyField (v : List Char) :
    splitEq ('k' :: 'e' :: 'y' :: '=' :: v) = (['k', 'e', 'y'], v) := by
  simp [splitEq]

theorem percentDecode_keyField : percentDecode ['k', 'e', 'y'] = keyFieldBytes := by
  have h : urlencodeBytes keyFieldBytes = ['k', 'e', 'y'] := rfl
  rw [← h, percentDecode_urlencode keyFieldBytes (by decide)]

/-- Core round-trip of the key codec: decoding an encoded key recovers it. -/
theorem decodeKey_encodeKey (k : List Nat) (h : ∀ b ∈ k, b < 256) :
    decodeKey (encodeKey k) = .ok k := by
  have hno : ∀ c ∈ encodeKey k, c ≠ '&' := by
    intro c hc
    simp only [encodeKey, List.mem_cons] at hc
    rcases hc with rfl | rfl | rfl | rfl | hc
    · decide
    · decide
    · decide
    · decide
    · exact (urlencode_no_sep k h c hc).1
  have hsplit := splitAmp_no_amp (encodeKey k) hno
  have hform : formPairs (encodeKey k) = [(keyFieldBytes, k)] := by
    rw [formPairs, hsplit]
    have hval : (percentDecode (splitEq (encodeKey k)).1,
        percentDecode (splitEq (encodeKey k)).2) = (keyFieldBytes, k) := by
      rw [show splitEq (encodeKey k) = (['k', 'e', 'y'], urlencodeBytes k) from
        splitEq_keyField (urlencodeBytes k)]
      rw [show ((['k', 'e', 'y'], urlencodeBytes k) : List Char × List Char).1
          = ['k', 'e', 'y'] from rfl]
      rw [show ((['k', 'e', 'y'], urlencodeBytes k) : List Char × List Char).2
          = urlencodeBytes k from rfl]
      rw [percentDecode_keyField, percentDecode_urlencode k h]
    have hne : (encodeKey k).isEmpty = false := rfl
    simp only [List.filter_cons, List.filter_nil, hne, Bool.not_false, if_true,
      List.map_cons, List.map_nil, hval]
  have hstep : decodeKey (encodeKey k)
      = match (formPairs (encodeKey k)).filter (fun p => p.1 == keyFieldBytes) with
        | [] => Except.error DecodeError.missingField
        | [p] => Except.ok p.2
        | _ => Except.error DecodeError.duplicateField := rfl
  rw [hstep, hform]
  rfl

/-! ### Basic facts about the store pipeline -/

theorem entryName_ok (n : List Char) : FileHeads.entryName (.ok n) = .ok n := rfl

theorem entryName_error (e : IOErrorKind) :
    FileHeads.entryName (.error e) = .error (.ioErr e) := rfl

theorem keepEntry_ok (n : List Char) :
    FileHeads.keepEntry (.ok n) = prefixChars.isPrefixOf n := rfl

theorem keepEntry_error (e : Error) : FileHeads.keepEntry (.error e) = true := rfl

theorem decodeEntry_ok (dec : List Char → Except Error (List Nat)) (n : List Char) :
    FileHeads.decodeEntry dec (.ok n) = dec (n.drop prefixChars.length) := rfl

theorem decodeEntry_error (dec : List Char → Except Error (List Nat)) (e : Error) :
    FileHeads.decodeEntry dec (.error e) = .error e := rfl

theorem byteDec_encodeKey (k : List Nat) (hk : ∀ b ∈ k, b < 256) :
    byteDec (encodeKey k) = .ok k := by
  rw [byteDec, decodeKey_encodeKey k hk]
  rfl

theorem isPrefixOf_append_self {α : Type} [BEq α] [LawfulBEq α] (l t : List α) :
    l.isPrefixOf (l ++ t) = true := by
  induction l with
  | nil => simp [List.isPrefixOf]
  | cons a l ih => simp [List.isPrefixOf, ih]

theorem keepEntry_marker (s : List Char) :
    FileHeads.keepEntry (.ok (markerName s)) = true := by
  rw [keepEntry_ok, markerName, isPrefixOf_append_self]

theorem markerName_drop (s : List Char) :
    (markerName s).drop prefixChars.length = s := by
  rw [markerName, List.drop_left]

theorem decodeEntry_marker (k : List Nat) (hk : ∀ b ∈ k, b < 256) :
    FileHeads.decodeEntry byteDec (.ok (markerName (encodeKey k))) = .ok k := by
  rw [decodeEntry_ok, markerName_drop, byteDec_encodeKey k hk]

/-! ### Claim theorems -/

/-- Claim C2: codec round-trip — for every key value accepted by the codec,
encoding wraps it in the single-field `key` structure, yielding
`key=<percent-encoded value>`, and decoding that string yields the key again;
encoding a byte-string key itself never fails. -/
theorem c2_codec_roundtrip (k : List Nat) (hk : ∀ b ∈ k, b < 256) :
    byteEnc k = .ok ('k' :: 'e' :: 'y' :: '=' :: urlencodeBytes k)
    ∧ byteDec (encodeKey k) = .ok k :=
  ⟨rfl, byteDec_encodeKey k hk⟩

/-- Witness for C2 at the key bytes `"he ÿ"`-like sample `[104, 101, 32, 255]`,
which exercises the pass-through, space and percent-escaped cases. -/
theorem c2_codec_roundtrip_witness :
    (∀ b ∈ [104, 101, 32, 255], b < 256)
    ∧ (byteEnc [104, 101, 32, 255]
        = .ok ('k' :: 'e' :: 'y' :: '=' :: urlencodeBytes [104, 101, 32, 255])
       ∧ byteDec (encodeKey [104, 101, 32, 255]) = .ok [104, 101, 32, 255]) :=
  ⟨by decide, c2_codec_roundtrip [104, 101, 32, 255] (by decide)⟩

/-- Claim C8: `is_head` resolves to a boolean and can fail only when
computing the key's path fails (an encoding failure); once the path is
computed, the dispatched existence check never produces an error, whatever
fault the stat call encounters. -/
theorem c8_is_head_error_surface (enc enc2 : List Nat → Except Error (List Char))
    (d d2 : List (List Char)) (k k2 : List Nat) (s : List Char) (err : Error)
    (fault fault2 : Option IOErrorKind)
    (h1 : enc k = .ok s) (h2 : enc2 k2 = .error err) :
    FileHeads.is_head enc d k fault
      = .ok (FileHeads.pathExistsSyscall d (markerName s) fault)
    ∧ FileHeads.is_head enc2 d2 k2 fault2 = .error err := by
  constructor
  · rw [FileHeads.is_head, FileHeads.get_path, h1]
    rfl
  · rw [FileHeads.is_head, FileHeads.get_path, h2]
    rfl

theorem c8_is_head_error_surface_witness :
    (byteEnc [97] = .ok (encodeKey [97])
     ∧ (fun _ : List Nat => (Except.error Error.ser : Except Error (List Char))) [97]
         = .error Error.ser)
    ∧ (FileHeads.is_head byteEnc [markerName (encodeKey [97])] [97] none
        = .ok (FileHeads.pathExistsSyscall [markerName (encodeKey [97])]
            (markerName (encodeKey [97])) none)
       ∧ FileHeads.is_head (fun _ => .error Error.ser) [] [97] none
         = .error Error.ser) :=
  ⟨⟨rfl, rfl⟩,
    c8_is_head_error_surface byteEnc (fun _ => .error Error.ser)
      [markerName (encodeKey [97])] [] [97] [97] (encodeKey [97]) Error.ser
      none none rfl rfl⟩

/-- Claim C9: when the stat call behind `path.exists()` fails, `is_head`
resolves to `Ok(false)` rather than surfacing an I/O error — even when the
marker file is actually present — so `false` conflates "marker absent" with
"marker unobservable". -/
theorem c9_is_head_conflates_stat_failure (enc : List Nat → Except Error (List Char))
    (d : List (List Char)) (k : List Nat) (s : List Char) (e : IOErrorKind)
    (h : enc k = .ok s) :
    FileHeads.is_head enc d k (some e) = .ok false := by
  rw [FileHeads.is_head, FileHeads.get_path, h]
  rfl

/-- Witness for C9: the marker for `[97]` is in the directory, yet a failing
stat makes `is_head` report `Ok(false)`. -/
theorem c9_is_head_conflates_stat_failure_witness :
    byteEnc [97] = .ok (encodeKey [97])
    ∧ FileHeads.is_head byteEnc [markerName (encodeKey [97])] [97]
        (some IOErrorKind.permissionDenied) = .ok false :=
  ⟨rfl, c9_is_head_conflates_stat_failure byteEnc [markerName (encodeKey [97])]
    [97] (encodeKey [97]) IOErrorKind.permissionDenied rfl⟩

/-- Claim C4: `remove(k)` succeeds whenever the path computation succeeds and
the deletion either succeeds or fails with "not found" — in particular
removing a key never added succeeds — and any other filesystem failure is
propagated to the caller as an error. -/
theorem c4_remove_error_policy (enc : List Nat → Except Error (List Char))
    (d d2 : List (List Char)) (k : List Nat) (s : List Char) (e : IOErrorKind)
    (hs : enc k = .ok s) (he : e ≠ IOErrorKind.notFound)
    (habs : markerName s ∉ d2) :
    FileHeads.remove enc d k none
      = .ok (if markerName s ∈ d then d.erase (markerName s) else d)
    ∧ FileHeads.remove enc d k (some IOErrorKind.notFound) = .ok d
    ∧ FileHeads.remove enc d2 k none = .ok d2
    ∧ FileHeads.remove enc d k (some e) = .error (.ioErr e) := by
  refine ⟨?_, ?_, ?_, ?_⟩
  · rw [FileHeads.remove, FileHeads.get_path, hs]
    by_cases hm : markerName s ∈ d
    · rw [if_pos hm]
      show (match FileHeads.removeFileSyscall d (markerName s) none with
        | .ok d2 => Except.ok d2
        | .error .notFound => Except.ok d
        | .error e => Except.error (Error.ioErr e)) = Except.ok (d.erase (markerName s))
      rw [FileHeads.removeFileSyscall, if_pos hm]
    · rw [if_neg hm]
      show (match FileHeads.removeFileSyscall d (markerName s) none with
        | .ok d2 => Except.ok d2
        | .error .notFound => Except.ok d
        | .error e => Except.error (Error.ioErr e)) = Except.ok d
      rw [FileHeads.removeFileSyscall, if_neg hm]
  · rw [FileHeads.remove, FileHeads.get_path, hs]
    rfl
  · rw [FileHeads.remove, FileHeads.get_path, hs]
    show (match FileHeads.removeFileSyscall d2 (markerName s) none with
      | .ok d3 => Except.ok d3
      | .error .notFound => Except.ok d2
      | .error e => Except.error (Error.ioErr e)) = Except.ok d2
    rw [FileHeads.removeFileSyscall, if_neg habs]
  · rw [FileHeads.remove, FileHeads.get_path, hs]
    cases e with
    | notFound => exact absurd rfl he
    | permissionDenied => rfl
    | otherKind => rfl

/-- Witness for C4 at key `[97]`: a directory holding its marker, an empty
directory, and a permission-denied fault. -/
theorem c4_remove_error_policy_witness :
    (byteEnc [97] = .ok (encodeKey [97])
     ∧ IOErrorKind.permissionDenied ≠ IOErrorKind.notFound
     ∧ markerName (encodeKey [97]) ∉ ([] : List (List Char)))
    ∧ (FileHeads.remove byteEnc [markerName (encodeKey [97])] [97] none
        = .ok (if markerName (encodeKey [97]) ∈ [markerName (encodeKey [97])] then
            [markerName (encodeKey [97])].erase (markerName (encodeKey [97]))
          else [markerName (encodeKey [97])])
       ∧ FileHeads.remove byteEnc [markerName (encodeKey [97])] [97]
           (some IOErrorKind.notFound) = .ok [markerName (encodeKey [97])]
       ∧ FileHeads.remove byteEnc [] [97] none = .ok []
       ∧ FileHeads.remove byteEnc [markerName (encodeKey [97])] [97]
           (some IOErrorKind.permissionDenied)
         = .error (.ioErr IOErrorKind.permissionDenied)) :=
  ⟨⟨rfl, by decide, by simp⟩,
    c4_remove_error_policy byteEnc [markerName (encodeKey [97])] [] [97]
      (encodeKey [97]) IOErrorKind.permissionDenied rfl (by decide) (by simp)⟩

theorem mem_createFile (d : List (List Char)) (m n : List Char) :
    n ∈ FileHeads.createFile d m ↔ n = m ∨ n ∈ d := by
  rw [FileHeads.createFile]
  by_cases hm : m ∈ d
  · rw [if_pos hm]
    constructor
    · exact fun h => Or.inr h
    · rintro (rfl | h)
      · exact hm
      · exact h
  · rw [if_neg hm]
    exact List.mem_cons

theorem mem_createFile_self (d : List (List Char)) (m : List Char) :
    m ∈ FileHeads.createFile d m :=
  (mem_createFile d m m).mpr (Or.inl rfl)

theorem createFile_nodup (d : List (List Char)) (m : List Char) (h : d.Nodup) :
    (FileHeads.createFile d m).Nodup := by
  rw [FileHeads.createFile]
  by_cases hm : m ∈ d
  · rw [if_pos hm]; exact h
  · rw [if_neg hm]; exact List.nodup_cons.mpr ⟨hm, h⟩

theorem createFile_idem (d : List (List Char)) (m : List Char) :
    FileHeads.createFile (FileHeads.createFile d m) m = FileHeads.createFile d m := by
  conv_lhs => rw [FileHeads.createFile]
  rw [if_pos (mem_createFile_self d m)]

/-- Claim C1: membership invariant — `is_head(k)` resolves to true exactly
when the file `head:<encoded k>` exists in the base directory; `add(k)`
creates exactly that file (after which `is_head` is true), `remove(k)`
deletes exactly that file (after which `is_head` is false), and the encoding
decodes back to `k`, so prefixed filenames remain in 1:1 correspondence with
stored keys. -/
theorem c1_membership_invariant (d : List (List Char)) (k : List Nat)
    (hk : ∀ b ∈ k, b < 256) (hnd : d.Nodup) :
    FileHeads.is_head byteEnc d k none
      = .ok (decide (markerName (encodeKey k) ∈ d))
    ∧ FileHeads.add byteEnc d k
        = .ok (FileHeads.createFile d (markerName (encodeKey k)))
    ∧ FileHeads.is_head byteEnc (FileHeads.createFile d (markerName (encodeKey k)))
        k none = .ok true
    ∧ FileHeads.remove byteEnc d k none
        = .ok (if markerName (encodeKey k) ∈ d then
            d.erase (markerName (encodeKey k)) else d)
    ∧ FileHeads.is_head byteEnc (d.erase (markerName (encodeKey k))) k none
        = .ok false
    ∧ byteDec (encodeKey k) = .ok k := by
  refine ⟨rfl, rfl, ?_, ?_, ?_, byteDec_encodeKey k hk⟩
  · have hm := mem_createFile_self d (markerName (encodeKey k))
    show Except.ok (FileHeads.pathExistsSyscall
        (FileHeads.createFile d (markerName (encodeKey k)))
        (markerName (encodeKey k)) none) = Except.ok true
    simp [FileHeads.pathExistsSyscall, hm]
  · by_cases hm : markerName (encodeKey k) ∈ d
    · rw [if_pos hm]
      show (match FileHeads.removeFileSyscall d (markerName (encodeKey k)) none with
        | .ok d2 => Except.ok d2
        | .error .notFound => Except.ok d
        | .error e => Except.error (Error.ioErr e))
        = Except.ok (d.erase (markerName (encodeKey k)))
      rw [FileHeads.removeFileSyscall, if_pos hm]
    · rw [if_neg hm]
      show (match FileHeads.removeFileSyscall d (markerName (encodeKey k)) none with
        | .ok d2 => Except.ok d2
        | .error .notFound => Except.ok d
        | .error e => Except.error (Error.ioErr e)) = Except.ok d
      rw [FileHeads.removeFileSyscall, if_neg hm]
  · have hm : markerName (encodeKey k) ∉ d.erase (markerName (encodeKey k)) := by
      rw [List.Nodup.mem_erase_iff hnd]
      rintro ⟨h, -⟩
      exact h rfl
    show Except.ok (FileHeads.pathExistsSyscall (d.erase (markerName (encodeKey k)))
        (markerName (encodeKey k)) none) = Except.ok false
    simp [FileHeads.pathExistsSyscall, hm]

/-- Witness for C1 at the empty directory and key `[97]`. -/
theorem c1_membership_invariant_witness :
    ((∀ b ∈ [97], b < 256) ∧ ([] : List (List Char)).Nodup)
    ∧ (FileHeads.is_head byteEnc [] [97] none
        = .ok (decide (markerName (encodeKey [97]) ∈ ([] : List (List Char))))
       ∧ FileHeads.add byteEnc [] [97]
          = .ok (FileHeads.createFile [] (markerName (encodeKey [97])))
       ∧ FileHeads.is_head byteEnc
          (FileHeads.createFile [] (markerName (encodeKey [97]))) [97] none = .ok true
       ∧ FileHeads.remove byteEnc [] [97] none
          = .ok (if markerName (encodeKey [97]) ∈ ([] : List (List Char)) then
              ([] : List (List Char)).erase (markerName (encodeKey [97])) else [])
       ∧ FileHeads.is_head byteEnc
          (([] : List (List Char)).erase (markerName (encodeKey [97]))) [97] none
         = .ok false
       ∧ byteDec (encodeKey [97]) = .ok [97]) :=
  ⟨⟨by decide, List.nodup_nil⟩,
    c1_membership_invariant [] [97] (by decide) List.nodup_nil⟩

theorem processEntries_ok_names (dec : List Char → Except Error (List Nat)) :
    ∀ names : List (List Char),
      FileHeads.processEntries dec (names.map .ok)
        = (names.filter (fun n => prefixChars.isPrefixOf n)).map
            (fun n => dec (n.drop prefixChars.length))
  | [] => rfl
  | n :: names => by
    have ih := processEntries_ok_names dec names
    cases hpn : prefixChars.isPrefixOf n with
    | true =>
      rw [FileHeads.processEntries] at ih ⊢
      rw [List.map_cons, List.map_cons, entryName_ok, List.filter_cons, keepEntry_ok, hpn,
        if_pos rfl, List.map_cons, decodeEntry_ok, List.filter_cons, hpn, if_pos rfl,
        List.map_cons, ih]
    | false =>
      rw [FileHeads.processEntries] at ih ⊢
      rw [List.map_cons, List.map_cons, entryName_ok, List.filter_cons, keepEntry_ok, hpn,
        if_neg (by simp), List.filter_cons, hpn, if_neg (by simp), ih]

/-- Claim C6: if the directory-listing call itself fails, `heads()` yields
exactly one failing element and ends; otherwise entries without the prefix
are silently skipped and prefixed entries have the prefix stripped and the
remainder decoded; an empty directory yields an empty sequence. -/
theorem c6_heads_enumeration (e : IOErrorKind) (names : List (List Char)) :
    FileHeads.heads byteDec (.error e) = [.error (.ioErr e)]
    ∧ FileHeads.heads byteDec (.ok []) = []
    ∧ FileHeads.heads byteDec (.ok (names.map .ok))
        = (names.filter (fun n => prefixChars.isPrefixOf n)).map
            (fun n => byteDec (n.drop prefixChars.length)) :=
  ⟨rfl, rfl, processEntries_ok_names byteDec names⟩

theorem processEntries_append (dec : List Char → Except Error (List Nat))
    (l1 l2 : List (Except IOErrorKind (List Char))) :
    FileHeads.processEntries dec (l1 ++ l2)
      = FileHeads.processEntries dec l1 ++ FileHeads.processEntries dec l2 := by
  rw [FileHeads.processEntries, FileHeads.processEntries, FileHeads.processEntries,
    List.map_append, List.filter_append, List.map_append]

/-- Claim C10: an error reading an individual directory entry is kept by the
prefix filter (its name was never compared against the prefix) and is
yielded as a failing element of the sequence, in place. -/
theorem c10_entry_error_yielded (pre post : List (Except IOErrorKind (List Char)))
    (e : IOErrorKind) :
    FileHeads.heads byteDec (.ok (pre ++ .error e :: post))
      = FileHeads.processEntries byteDec pre
        ++ .error (.ioErr e) :: FileHeads.processEntries byteDec post := by
  have hcons : FileHeads.processEntries byteDec (.error e :: post)
      = .error (.ioErr e) :: FileHeads.processEntries byteDec post := by
    rw [FileHeads.processEntries, FileHeads.processEntries, List.map_cons, entryName_error,
      List.filter_cons]
    rw [show FileHeads.keepEntry (.error (.ioErr e)) = true from rfl]
    rw [if_pos rfl, List.map_cons, decodeEntry_error]
  show FileHeads.processEntries byteDec (pre ++ .error e :: post) = _
  rw [processEntries_append, hcons]

theorem collectStream_all_ok_append (x : Error) (B : List (Except Error (List Nat))) :
    ∀ A, (∀ r ∈ A, ∃ a, r = .ok a) →
      FileHeads.collectStream (A ++ .error x :: B) = A ++ [.error x]
  | [], _ => rfl
  | r :: A, h => by
    obtain ⟨a, rfl⟩ := h r (List.mem_cons_self r A)
    have ih := collectStream_all_ok_append x B A
      (fun r hr => h r (List.mem_cons_of_mem _ hr))
    rw [List.cons_append]
    rw [show FileHeads.collectStream (Except.ok a :: (A ++ Except.error x :: B))
        = Except.ok a :: FileHeads.collectStream (A ++ Except.error x :: B) from rfl]
    rw [ih, List.cons_append]

/-- Claim C3: once an entry with the prefix fails to decode, the consumed
sequence ends at that failing element — nothing after it is yielded, even
entries that would decode successfully. -/
theorem c3_decode_failure_aborts (pre post : List (Except IOErrorKind (List Char)))
    (n : List Char) (e : DecodeError)
    (hn : prefixChars.isPrefixOf n = true)
    (hd : decodeKey (n.drop prefixChars.length) = .error e)
    (hpre : ∀ r ∈ FileHeads.processEntries byteDec pre, ∃ a, r = .ok a) :
    FileHeads.collectStream (FileHeads.heads byteDec (.ok (pre ++ .ok n :: post)))
      = FileHeads.processEntries byteDec pre ++ [.error (.de e)] := by
  have hmid : FileHeads.processEntries byteDec (pre ++ .ok n :: post)
      = FileHeads.processEntries byteDec pre
        ++ .error (.de e) :: FileHeads.processEntries byteDec post := by
    have hcons : FileHeads.processEntries byteDec (.ok n :: post)
        = .error (.de e) :: FileHeads.processEntries byteDec post := by
      rw [FileHeads.processEntries, FileHeads.processEntries, List.map_cons, entryName_ok,
        List.filter_cons, keepEntry_ok, hn, if_pos rfl, List.map_cons, decodeEntry_ok]
      rw [show byteDec (n.drop prefixChars.length)
          = (decodeKey (n.drop prefixChars.length)).mapError Error.de from rfl, hd]
      rfl
    rw [processEntries_append, hcons]
  show FileHeads.collectStream (FileHeads.processEntries byteDec (pre ++ .ok n :: post)) = _
  rw [hmid]
  exact collectStream_all_ok_append (.de e) _ (FileHeads.processEntries byteDec pre) hpre

/-- Witness for C3: the undecodable bare name `head:` is followed by a
well-formed marker entry, yet that later entry is not yielded. -/
theorem c3_decode_failure_aborts_witness :
    (prefixChars.isPrefixOf prefixChars = true
     ∧ decodeKey (prefixChars.drop prefixChars.length) = .error DecodeError.missingField
     ∧ (∀ r ∈ FileHeads.processEntries byteDec [], ∃ a, r = .ok a))
    ∧ FileHeads.collectStream (FileHeads.heads byteDec
        (.ok ([] ++ .ok prefixChars :: [.ok (markerName (encodeKey [97]))])))
      = FileHeads.processEntries byteDec [] ++ [.error (.de DecodeError.missingField)] :=
  ⟨⟨rfl, rfl, by simp [FileHeads.processEntries]⟩,
    c3_decode_failure_aborts [] [.ok (markerName (encodeKey [97]))] prefixChars
      DecodeError.missingField rfl rfl (by simp [FileHeads.processEntries])⟩

theorem count_eq_one_nodup {α : Type} [BEq α] [LawfulBEq α] (a : α) :
    ∀ l : List α, l.Nodup → a ∈ l → l.count a = 1
  | [], _, hm => absurd hm (List.not_mem_nil a)
  | x :: l, hnd, hm => by
    rw [List.count_cons]
    rcases List.mem_cons.mp hm with rfl | hm2
    · have hnotmem : a ∉ l := (List.nodup_cons.mp hnd).1
      rw [List.count_eq_zero.mpr hnotmem]
      simp
    · have hx : x ≠ a := fun he => (List.nodup_cons.mp hnd).1 (he ▸ hm2)
      rw [count_eq_one_nodup a l (List.nodup_cons.mp hnd).2 hm2]
      simp [hx]

theorem processEntries_cons_ok (dec : List Char → Except Error (List Nat))
    (n : List Char) (rest : List (Except IOErrorKind (List Char))) :
    FileHeads.processEntries dec (.ok n :: rest)
      = if prefixChars.isPrefixOf n then
          FileHeads.decodeEntry dec (.ok n) :: FileHeads.processEntries dec rest
        else FileHeads.processEntries dec rest := by
  rw [FileHeads.processEntries, FileHeads.processEntries, List.map_cons, entryName_ok,
    List.filter_cons, keepEntry_ok]
  cases hpn : prefixChars.isPrefixOf n with
  | true => rw [if_pos rfl, if_pos rfl, List.map_cons]
  | false => rw [if_neg (by simp), if_neg (by simp)]

theorem count_processEntries (dec : List Char → Except Error (List Nat)) (k : List Nat) :
    ∀ d : List (List Char),
      (FileHeads.processEntries dec (d.map .ok)).count (.ok k)
        = d.countP (fun n => FileHeads.keepEntry (.ok n)
            && (FileHeads.decodeEntry dec (.ok n) == .ok k))
  | [] => rfl
  | n :: d => by
    have ih := count_processEntries dec k d
    rw [List.map_cons, processEntries_cons_ok, List.countP_cons]
    cases hpn : prefixChars.isPrefixOf n with
    | true =>
      rw [if_pos rfl, List.count_cons, ih, keepEntry_ok, hpn, Bool.true_and]
    | false =>
      rw [if_neg (by simp), ih, keepEntry_ok, hpn, Bool.false_and]
      simp

/-- Claim C5: add is idempotent — for an encodable key `k`, with no stray
directory entry decoding to `k` other than its own marker, adding `k` twice
succeeds both times and leaves exactly one marker file for `k`; afterwards
`is_head(k)` is true and `k` appears exactly once in `heads()`. -/
theorem c5_add_twice_idempotent (d : List (List Char)) (k : List Nat)
    (hk : ∀ b ∈ k, b < 256) (hnd : d.Nodup)
    (halias : ∀ n ∈ d, prefixChars.isPrefixOf n = true →
      byteDec (n.drop prefixChars.length) = .ok k → n = markerName (encodeKey k)) :
    FileHeads.add byteEnc d k
      = .ok (FileHeads.createFile d (markerName (encodeKey k)))
    ∧ FileHeads.add byteEnc (FileHeads.createFile d (markerName (encodeKey k))) k
        = .ok (FileHeads.createFile d (markerName (encodeKey k)))
    ∧ (FileHeads.createFile d (markerName (encodeKey k))).count
        (markerName (encodeKey k)) = 1
    ∧ FileHeads.is_head byteEnc (FileHeads.createFile d (markerName (encodeKey k)))
        k none = .ok true
    ∧ (FileHeads.headsOfDir byteDec
        (FileHeads.createFile d (markerName (encodeKey k)))).count (.ok k) = 1 := by
  refine ⟨rfl, ?_, ?_, ?_, ?_⟩
  · show Except.ok (FileHeads.createFile
        (FileHeads.createFile d (markerName (encodeKey k))) (markerName (encodeKey k)))
      = Except.ok (FileHeads.createFile d (markerName (encodeKey k)))
    rw [createFile_idem]
  · exact count_eq_one_nodup _ _ (createFile_nodup d _ hnd) (mem_createFile_self d _)
  · have hmem := mem_createFile_self d (markerName (encodeKey k))
    show Except.ok (FileHeads.pathExistsSyscall
        (FileHeads.createFile d (markerName (encodeKey k)))
        (markerName (encodeKey k)) none) = Except.ok true
    simp [FileHeads.pathExistsSyscall, hmem]
  · rw [show FileHeads.headsOfDir byteDec (FileHeads.createFile d (markerName (encodeKey k)))
        = FileHeads.processEntries byteDec
            ((FileHeads.createFile d (markerName (encodeKey k))).map .ok) from rfl]
    rw [count_processEntries]
    have hpt : ∀ n ∈ FileHeads.createFile d (markerName (encodeKey k)),
        (FileHeads.keepEntry (.ok n)
          && (FileHeads.decodeEntry byteDec (.ok n) == .ok k)) = true
          ↔ (n == markerName (encodeKey k)) = true := by
      intro n hn
      constructor
      · intro hp
        rw [Bool.and_eq_true] at hp
        have hdec : FileHeads.decodeEntry byteDec (.ok n) = .ok k := by
          have h2 := hp.2
          rwa [beq_iff_eq] at h2
        have hkeep : prefixChars.isPrefixOf n = true := by
          have h1 := hp.1
          rwa [keepEntry_ok] at h1
        rcases (mem_createFile d _ n).mp hn with rfl | hnd2
        · exact beq_self_eq_true _
        · have heqn := halias n hnd2 hkeep (by rwa [decodeEntry_ok] at hdec)
          rw [heqn]
          exact beq_self_eq_true _
      · intro hb
        have hn_eq : n = markerName (encodeKey k) := by rwa [beq_iff_eq] at hb
        subst hn_eq
        rw [keepEntry_marker, decodeEntry_marker k hk, Bool.true_and]
        exact beq_self_eq_true _
    rw [List.countP_congr hpt, ← List.count_eq_countP]
    exact count_eq_one_nodup _ _ (createFile_nodup d _ hnd) (mem_createFile_self d _)

/-- Witness for C5 at the empty directory and key `[97]`. -/
theorem c5_add_twice_idempotent_witness :
    ((∀ b ∈ [97], b < 256) ∧ ([] : List (List Char)).Nodup
     ∧ (∀ n ∈ ([] : List (List Char)), prefixChars.isPrefixOf n = true →
          byteDec (n.drop prefixChars.length) = .ok [97] → n = markerName (encodeKey [97])))
    ∧ (FileHeads.add byteEnc [] [97]
        = .ok (FileHeads.createFile [] (markerName (encodeKey [97])))
       ∧ FileHeads.add byteEnc (FileHeads.createFile [] (markerName (encodeKey [97]))) [97]
          = .ok (FileHeads.createFile [] (markerName (encodeKey [97])))
       ∧ (FileHeads.createFile [] (markerName (encodeKey [97]))).count
          (markerName (encodeKey [97])) = 1
       ∧ FileHeads.is_head byteEnc (FileHeads.createFile [] (markerName (encodeKey [97])))
          [97] none = .ok true
       ∧ (FileHeads.headsOfDir byteDec
          (FileHeads.createFile [] (markerName (encodeKey [97])))).count (.ok [97]) = 1) :=
  ⟨⟨by decide, List.nodup_nil, by simp⟩,
    c5_add_twice_idempotent [] [97] (by decide) List.nodup_nil (by simp)⟩

theorem self_mem_ancestors (p : List String) (hp : p ≠ []) : p ∈ ancestors p := by
  rw [ancestors]
  refine List.mem_map.mpr ⟨p.length - 1, List.mem_range.mpr ?_, ?_⟩
  · have := List.length_pos.mpr hp
    omega
  · have h1 : p.length - 1 + 1 = p.length := by
      have := List.length_pos.mpr hp
      omega
    rw [h1, List.take_length]

theorem ancestors_length_le (p q : List String) (hq : q ∈ ancestors p) :
    q.length ≤ p.length := by
  rw [ancestors] at hq
  obtain ⟨i, hi, rfl⟩ := List.mem_map.mp hq
  rw [List.length_take]
  exact Nat.min_le_right _ _

/-- Claim C7 (amended): for a nonempty path `p` that is not a directory,
`open(p)` fails with the not-a-directory condition; when additionally neither
`p` nor any of its ancestors exists as a file, `create(p)` recursively
creates `p` and its missing parents and then behaves as `open`, succeeding —
and if nothing existed under `p`, the resulting store is empty. -/
theorem c7_open_create (fs : PathFS) (p : List String)
    (hp : p ≠ []) (hnd : fs.isDir p = false)
    (hnf : (ancestors p).any fs.isFile = false)
    (hchild : ∀ q ∈ fs.files ++ fs.dirs, childName p q = none) :
    FileHeads.open_with_pool fs p = .error .notDir
    ∧ FileHeads.create_with_pool fs p
        = .ok (PathFS.mk (ancestors p ++ fs.dirs) fs.files, p)
    ∧ listDir (PathFS.mk (ancestors p ++ fs.dirs) fs.files) p = []
    ∧ FileHeads.heads byteDec
        (.ok ((listDir (PathFS.mk (ancestors p ++ fs.dirs) fs.files) p).map
          (fun nm => .ok nm.data))) = [] := by
  have hlist : listDir (PathFS.mk (ancestors p ++ fs.dirs) fs.files) p = [] := by
    rw [listDir]
    rw [List.filterMap_eq_nil_iff]
    intro q hq
    rcases List.mem_append.mp hq with hq | hq
    · exact hchild q (List.mem_append_left _ hq)
    · rcases List.mem_append.mp hq with hq2 | hq2
      · rw [childName, if_neg]
        rintro ⟨hlen, -⟩
        have := ancestors_length_le p q hq2
        omega
      · exact hchild q (List.mem_append_right _ hq2)
  have hopen2 : (PathFS.mk (ancestors p ++ fs.dirs) fs.files).isDir p = true := by
    rw [PathFS.isDir]
    have := List.mem_append_left fs.dirs (self_mem_ancestors p hp)
    simp [this]
  refine ⟨?_, ?_, hlist, ?_⟩
  · rw [FileHeads.open_with_pool, if_neg (by simp [hnd])]
  · rw [FileHeads.create_with_pool, create_dir_all, if_neg (by simp [hnd]),
      if_neg (by simp [hnf])]
    show (FileHeads.open_with_pool (PathFS.mk (ancestors p ++ fs.dirs) fs.files) p).map
        (fun b => (PathFS.mk (ancestors p ++ fs.dirs) fs.files, b))
      = .ok (PathFS.mk (ancestors p ++ fs.dirs) fs.files, p)
    rw [FileHeads.open_with_pool, if_pos hopen2]
    rfl
  · rw [hlist]
    rfl

/-- Witness for C7 (amended): the empty filesystem and the path `["a"]`. -/
theorem c7_open_create_witness :
    ((["a"] : List String) ≠ []
     ∧ (PathFS.mk [] []).isDir ["a"] = false
     ∧ (ancestors ["a"]).any (PathFS.mk [] []).isFile = false
     ∧ (∀ q ∈ (PathFS.mk [] []).files ++ (PathFS.mk [] []).dirs,
          childName ["a"] q = none))
    ∧ (FileHeads.open_with_pool (PathFS.mk [] []) ["a"] = .error .notDir
       ∧ FileHeads.create_with_pool (PathFS.mk [] []) ["a"]
          = .ok (PathFS.mk (ancestors ["a"] ++ (PathFS.mk [] []).dirs)
              (PathFS.mk [] []).files, ["a"])
       ∧ listDir (PathFS.mk (ancestors ["a"] ++ (PathFS.mk [] []).dirs)
            (PathFS.mk [] []).files) ["a"] = []
       ∧ FileHeads.heads byteDec
          (.ok ((listDir (PathFS.mk (ancestors ["a"] ++ (PathFS.mk [] []).dirs)
              (PathFS.mk [] []).files) ["a"]).map (fun nm => .ok nm.data))) = []) :=
  ⟨⟨by simp, rfl, rfl, by simp⟩,
    c7_open_create (PathFS.mk [] []) ["a"] (by simp) rfl rfl (by simp)⟩

/-- Counterexample to Claim C7 as stated: the path `["x"]` exists as a file,
so it "is not a directory" and `open` fails as claimed, but `create` on the
same path does not succeed — `fs::create_dir_all` fails because the target
exists as a file. -/
theorem c7_counterexample :
    (PathFS.mk [] [["x"]]).isDir ["x"] = false
    ∧ FileHeads.open_with_pool (PathFS.mk [] [["x"]]) ["x"] = .error .notDir
    ∧ FileHeads.create_with_pool (PathFS.mk [] [["x"]]) ["x"]
        = .error (.ioErr .otherKind) :=
  ⟨rfl, rfl, rfl⟩

end Fileheads
